import Mathlib

/-
Verification of the per-call memory-observation engine of gapii
(gapii/cc/call_observer.h), shallowly embedded in Lean 4.

The embedding models:
  - the pending-range tracker (core::IntervalList) as a list of half-open
    byte intervals with merge-on-insert semantics;
  - memory as a total function from byte addresses to element values, one
    element stored at the byte address of its first byte;
  - a Slice as (base byte address, element count, application-pool flag);
  - the CallObserver record with the members of the C++ class that the
    observation logic touches.

Bodies that live in call_observer.cpp, interval_list.h, slice.h and the
pool abstraction are not part of the source tree under verification; the
definitions that stand in for them carry a doc comment starting with
"Modelled from the spec:" and follow the specification text.
-/

namespace gapii

/-- Modelled from the spec: overlap-or-adjacency test of the pending-range
tracker; two half-open intervals are merged when they overlap or touch. -/
def touches (lo hi : Nat) (p : Nat × Nat) : Bool :=
  decide (p.1 ≤ hi) && decide (lo ≤ p.2)

/-- Lower bound of the merged interval: minimum of the inserted low end and
the low ends of every retained interval it touches. -/
def mergedLo (l : List (Nat × Nat)) (a : Nat) : Nat :=
  l.foldl (fun m p => min m p.1) a

/-- Upper bound of the merged interval: maximum of the inserted high end and
the high ends of every retained interval it touches. -/
def mergedHi (l : List (Nat × Nat)) (a : Nat) : Nat :=
  l.foldl (fun m p => max m p.2) a

/-- Modelled from the spec: insert of core/cc/interval_list.h (declaration
only under src, as the type of CallObserver::mPendingObservations).  Adds
the half-open interval [lo, lo+size), merging with every existing entry
that overlaps or is adjacent; size = 0 is a no-op. -/
def insertInterval (l : List (Nat × Nat)) (lo size : Nat) : List (Nat × Nat) :=
  if size = 0 then l
  else (mergedLo (l.filter (touches lo (lo + size))) lo,
        mergedHi (l.filter (touches lo (lo + size))) (lo + size))
       :: l.filter (fun p => ! touches lo (lo + size) p)

/-- The observation record (core::coder::atom::Observations): a list of
read ranges and a list of write ranges.  The byte payload captured at
drain time is not needed by any property checked here, so an observation
is represented by its half-open byte range. -/
structure Observations where
  reads : List (Nat × Nat)
  writes : List (Nat × Nat)
  deriving DecidableEq

/-- An entry of the extras bag.  The private observation record can only
reach the bag through observeReads/observeWrites, so it is represented by
the dedicated tag; every extra appended by call-site glue code is tagged
other. -/
inductive Extra where
  | observations : Extra
  | other : Nat → Extra
  deriving DecidableEq

/-- The CallObserver state: the members of the C++ class that the
observation logic reads or writes.  The scratch allocator and the spy
pointer carry no observable state of their own and are omitted. -/
structure CallObserver where
  mCurrentCommandName : String
  mObserveApplicationPool : Bool
  mObservations : Option Observations
  mPendingObservations : List (Nat × Nat)
  mExtras : List Extra
  mError : Nat
  deriving DecidableEq

/-- Modelled from the spec: a Slice (gapii/cc/slice.h, not under src) is a
view (base pointer, element count, owning pool); the pool only matters
through its application-pool classification. -/
structure Slice (T : Type) where
  base : Nat
  count : Nat
  isApplicationPool : Bool
  deriving DecidableEq

/-- Memory: element values indexed by the byte address of the element's
first byte.  The element of a slice s at index i lives at address
s.base + i * sizeofT. -/
abbrev Mem (T : Type) := Nat → T

/-- A world bundles the observer with memory and an allocation cursor;
addresses below nextFree are already owned by some pool, Pool::create
hands out fresh addresses from nextFree upward. -/
structure World (T : Type) where
  obs : CallObserver
  mem : Mem T
  nextFree : Nat

/-- Modelled from the spec: body of CallObserver::read(const void*,
uint64_t) lives in call_observer.cpp; it unconditionally records the byte
range [base, base+size) into the pending-range tracker. -/
def readRaw (s : CallObserver) (base size : Nat) : CallObserver :=
  { s with mPendingObservations := insertInterval s.mPendingObservations base size }

/-- Modelled from the spec: body of CallObserver::write(const void*,
uint64_t) lives in call_observer.cpp; it unconditionally records the byte
range [base, base+size) into the pending-range tracker. -/
def writeRaw (s : CallObserver) (base size : Nat) : CallObserver :=
  { s with mPendingObservations := insertInterval s.mPendingObservations base size }

/-- CallObserver::shouldObserve: true iff the application pool is being
observed and the slice lives in the application pool. -/
def shouldObserve {T : Type} (s : CallObserver) (slice : Slice T) : Bool :=
  s.mObserveApplicationPool && slice.isApplicationPool

/-- CallObserver::read(const Slice&): record the whole extent of the slice
as a read when shouldObserve holds. -/
def readSlice {T : Type} (sz : Nat) (s : CallObserver) (slice : Slice T) : CallObserver :=
  if shouldObserve s slice then readRaw s slice.base (slice.count * sz) else s

/-- CallObserver::read(const Slice&, uint64_t): fetch the element, and when
shouldObserve holds also record that element's bytes as a read. -/
def readIdx {T : Type} (sz : Nat) (s : CallObserver) (mem : Mem T) (src : Slice T)
    (i : Nat) : T × CallObserver :=
  if shouldObserve s src then
    (mem (src.base + i * sz), readRaw s (src.base + i * sz) sz)
  else
    (mem (src.base + i * sz), s)

/-- CallObserver::write(const Slice&): record the whole extent of the slice
as a write when shouldObserve holds. -/
def writeSlice {T : Type} (sz : Nat) (s : CallObserver) (slice : Slice T) : CallObserver :=
  if shouldObserve s slice then writeRaw s slice.base (slice.count * sz) else s

/-- Store one element value at a byte address. -/
def writeElem {T : Type} (mem : Mem T) (addr : Nat) (v : T) : Mem T :=
  fun a => if a = addr then v else mem a

/-- CallObserver::write(const Slice&, uint64_t, const T&): when shouldObserve
does not hold the value is stored directly into the destination element;
otherwise the destination element is recorded as a pending observation and
memory is untouched. -/
def writeIdx {T : Type} (sz : Nat) (s : CallObserver) (mem : Mem T) (dst : Slice T)
    (i : Nat) (v : T) : Mem T × CallObserver :=
  if ! shouldObserve s dst then
    (writeElem mem (dst.base + i * sz) v, s)
  else
    (mem, writeRaw s (dst.base + i * sz) sz)

/-- Modelled from the spec: Slice::copy(dst, start, count, dstStart) of
gapii/cc/slice.h (not under src): copy count elements of the receiver
starting at start into dst starting at dstStart, reading the source values
from the state of memory before the copy. -/
def sliceCopy {T : Type} (sz : Nat) (src dst : Slice T) (start dstStart : Nat)
    (mem : Mem T) : Nat → Mem T
  | 0 => mem
  | k + 1 =>
      writeElem (sliceCopy sz src dst start dstStart mem k)
        (dst.base + (dstStart + k) * sz) (mem (src.base + (start + k) * sz))

/-- CallObserver::copy: record src as a read (gated by shouldObserve inside
readSlice); when shouldObserve does not hold for dst, physically copy
min(src.count, dst.count) elements from src into dst; return dst. -/
def copy {T : Type} (sz : Nat) (s : CallObserver) (mem : Mem T) (dst src : Slice T) :
    Slice T × Mem T × CallObserver :=
  let s1 := readSlice sz s src
  if ! shouldObserve s1 dst then
    (dst,
     sliceCopy sz src dst 0 0 mem (if src.count < dst.count then src.count else dst.count),
     s1)
  else
    (dst, mem, s1)

/-- CallObserver::make: a slice of the given element count on a new pool.
Modelled from the spec: Pool::create (not under src) hands out a fresh
interceptor-owned pool of count * sizeofT bytes, modelled by bumping the
allocation cursor; the fresh pool is never the application pool. -/
def make {T : Type} (sz : Nat) (w : World T) (count : Nat) : Slice T × World T :=
  (⟨w.nextFree, count, false⟩, { w with nextFree := w.nextFree + count * sz })

/-- CallObserver::clone: make a slice of src.count elements on a new pool,
copy src into it, and return it. -/
def clone {T : Type} (sz : Nat) (w : World T) (src : Slice T) : Slice T × World T :=
  let dst := (make sz w src.count).1
  let w1 := (make sz w src.count).2
  let r := copy sz w1.obs w1.mem dst src
  (dst, { w1 with mem := r.2.1, obs := r.2.2 })

/-- Modelled from the spec: body of CallObserver::observe lives in
call_observer.cpp; it drains every pending range into the caller-supplied
list and empties the tracker, even when the tracker was already empty. -/
def observe (s : CallObserver) (target : List (Nat × Nat)) :
    List (Nat × Nat) × CallObserver :=
  (target ++ s.mPendingObservations, { s with mPendingObservations := [] })

/-- The lazy-creation step shared by observeReads and observeWrites: when no
observation record exists yet, create one and attach it to the extras. -/
def attach (s : CallObserver) : CallObserver :=
  match s.mObservations with
  | none => { s with mObservations := some ⟨[], []⟩,
                     mExtras := s.mExtras ++ [Extra.observations] }
  | some _ => s

/-- The observation record currently held by the observer (meaningful after
attach; an absent record reads as empty). -/
def recordOf (s : CallObserver) : Observations :=
  match s.mObservations with
  | none => ⟨[], []⟩
  | some o => o

/-- CallObserver::observeReads: when the tracker is non-empty, lazily create
and attach the observation record, then drain the tracker into the
record's read list. -/
def observeReads (s : CallObserver) : CallObserver :=
  if s.mPendingObservations.length > 0 then
    { (observe (attach s) (recordOf (attach s)).reads).2 with
        mObservations := some
          { reads := (observe (attach s) (recordOf (attach s)).reads).1,
            writes := (recordOf (attach s)).writes } }
  else s

/-- CallObserver::observeWrites: when the tracker is non-empty, lazily
create and attach the observation record, then drain the tracker into the
record's write list. -/
def observeWrites (s : CallObserver) : CallObserver :=
  if s.mPendingObservations.length > 0 then
    { (observe (attach s) (recordOf (attach s)).writes).2 with
        mObservations := some
          { reads := (recordOf (attach s)).reads,
            writes := (observe (attach s) (recordOf (attach s)).writes).1 } }
  else s

/-- CallObserver::addExtra: append one entry to the extras bag. -/
def addExtra (s : CallObserver) (e : Extra) : CallObserver :=
  { s with mExtras := s.mExtras ++ [e] }

/-- Offset of the first zero byte at or after p, searched with explicit
fuel: the shallow embedding of the unbounded terminator scan of
CallObserver::string(const char*). -/
def cstrFind (mem : Mem Nat) : Nat → Nat → Option Nat
  | _, 0 => none
  | p, fuel + 1 =>
      if mem p = 0 then some 0
      else (cstrFind mem (p + 1) fuel).map (fun k => k + 1)

/-- CallObserver::string(const char*): fail on a null pointer (modelled from
the spec: checkNotNull of abort_exception.h raises a fatal abort, embedded
as Except.error); otherwise scan for the terminating zero, record the text
plus terminator as one read observation, and return the text before the
terminator.  The outer Option is none exactly when the fuel does not reach
a terminator, embedding the unbounded scan. -/
def stringC (s : CallObserver) (mem : Mem Nat) (p fuel : Nat) :
    Option (Except Unit (List Nat × CallObserver)) :=
  if p = 0 then some (Except.error ())
  else
    match cstrFind mem p fuel with
    | some n =>
        some (Except.ok ((List.range n).map (fun k => mem (p + k)),
                         readRaw s p (n + 1)))
    | none => none

/-- CallObserver::string(const Slice&): record the slice as a read (gated by
shouldObserve inside readSlice) and return its contents verbatim. -/
def stringSlice {T : Type} (sz : Nat) (s : CallObserver) (mem : Mem T)
    (slice : Slice T) : List T × CallObserver :=
  ((List.range slice.count).map (fun i => mem (slice.base + i * sz)),
   readSlice sz s slice)

/-- Modelled from the spec: the constructor body lives in call_observer.cpp;
a fresh observer has an empty tracker, no observation record and an empty
extras bag, with the application-pool policy flag supplied by the spy. -/
def initObserver (flag : Bool) : CallObserver :=
  { mCurrentCommandName := "", mObserveApplicationPool := flag,
    mObservations := none, mPendingObservations := [], mExtras := [], mError := 0 }

/-- A fresh world: fresh observer, arbitrary zeroed memory, allocation
cursor at zero. -/
def initWorld (flag : Bool) : World Nat :=
  { obs := initObserver flag, mem := fun _ => 0, nextFree := 0 }

/-- One call into the observer surface, for reasoning about arbitrary
call-site behaviour over one observer lifetime. -/
inductive Op where
  | rawRead : Nat → Nat → Op
  | rawWrite : Nat → Nat → Op
  | sliceRead : Slice Nat → Op
  | sliceWrite : Slice Nat → Op
  | idxRead : Slice Nat → Nat → Op
  | idxWrite : Slice Nat → Nat → Nat → Op
  | copyBoth : Slice Nat → Slice Nat → Op
  | cloneSrc : Slice Nat → Op
  | strC : Nat → Nat → Op
  | strSlice : Slice Nat → Op
  | obsReads : Op
  | obsWrites : Op
  | extraOther : Nat → Op

/-- Apply one observer operation to the world. -/
def step (sz : Nat) (w : World Nat) : Op → World Nat
  | Op.rawRead a n => { w with obs := readRaw w.obs a n }
  | Op.rawWrite a n => { w with obs := writeRaw w.obs a n }
  | Op.sliceRead sl => { w with obs := readSlice sz w.obs sl }
  | Op.sliceWrite sl => { w with obs := writeSlice sz w.obs sl }
  | Op.idxRead sl i => { w with obs := (readIdx sz w.obs w.mem sl i).2 }
  | Op.idxWrite sl i v =>
      { w with mem := (writeIdx sz w.obs w.mem sl i v).1,
               obs := (writeIdx sz w.obs w.mem sl i v).2 }
  | Op.copyBoth dst src =>
      { w with mem := (copy sz w.obs w.mem dst src).2.1,
               obs := (copy sz w.obs w.mem dst src).2.2 }
  | Op.cloneSrc src => (clone sz w src).2
  | Op.strC p fuel =>
      match stringC w.obs w.mem p fuel with
      | some (Except.ok r) => { w with obs := r.2 }
      | _ => w
  | Op.strSlice sl => { w with obs := (stringSlice sz w.obs w.mem sl).2 }
  | Op.obsReads => { w with obs := observeReads w.obs }
  | Op.obsWrites => { w with obs := observeWrites w.obs }
  | Op.extraOther n => { w with obs := addExtra w.obs (Extra.other n) }

/-- Whether an extras entry is the observation record. -/
def isObsExtra : Extra → Bool
  | Extra.observations => true
  | Extra.other _ => false

/-- Number of observation records attached to an extras bag. -/
def obsExtraCount (l : List Extra) : Nat := l.countP isObsExtra

/-- Record-attachment invariant: the extras bag holds the observation record
exactly once when the record exists and never otherwise. -/
def obsInv (s : CallObserver) : Prop :=
  obsExtraCount s.mExtras = (if s.mObservations.isSome then 1 else 0)

/-- Read list of the observer's current observation record. -/
def recReads (s : CallObserver) : List (Nat × Nat) := (recordOf s).reads

/-- Write list of the observer's current observation record. -/
def recWrites (s : CallObserver) : List (Nat × Nat) := (recordOf s).writes

/-- Two intervals neither overlap nor touch. -/
def separated (p q : Nat × Nat) : Prop := ¬ (p.1 ≤ q.2 ∧ q.1 ≤ p.2)

/-- Well-formed tracker: pairwise separated, well-ordered entries. -/
def wfTracker (l : List (Nat × Nat)) : Prop :=
  l.Pairwise separated ∧ ∀ p ∈ l, p.1 ≤ p.2

/- Concrete inputs used by witnesses and counterexamples. -/

def obsOff : CallObserver := initObserver false

def obsOn : CallObserver := initObserver true

def memZero : Mem Nat := fun _ => 0

def memRamp : Mem Nat := fun a => a

def memStr : Mem Nat := fun a => if a = 13 then 0 else 97

def dstApp : Slice Nat := ⟨10, 2, true⟩

def srcFar : Slice Nat := ⟨100, 2, false⟩

def srcApp2 : Slice Nat := ⟨100, 2, true⟩

def slNonApp4 : Slice Nat := ⟨10, 4, false⟩

def srcNonApp3 : Slice Nat := ⟨100, 3, false⟩

def wBase : World Nat := { obs := obsOn, mem := memRamp, nextFree := 200 }

def opsDemo : List Op := [Op.rawRead 0 4, Op.obsReads, Op.rawWrite 8 4, Op.obsWrites]

/- ------------------------------------------------------------------ -/
/- Helper lemmas about the pending-range tracker.                      -/
/- ------------------------------------------------------------------ -/

theorem mergedLo_cons (q : Nat × Nat) (tl : List (Nat × Nat)) (a : Nat) :
    mergedLo (q :: tl) a = mergedLo tl (min a q.1) := rfl

theorem mergedHi_cons (q : Nat × Nat) (tl : List (Nat × Nat)) (a : Nat) :
    mergedHi (q :: tl) a = mergedHi tl (max a q.2) := rfl

theorem mergedLo_le (l : List (Nat × Nat)) (a : Nat) : mergedLo l a ≤ a := by
  induction l generalizing a with
  | nil => exact Nat.le_refl a
  | cons q tl ih =>
      rw [mergedLo_cons]
      exact le_trans (ih (min a q.1)) (Nat.min_le_left a q.1)

theorem le_mergedHi (l : List (Nat × Nat)) (a : Nat) : a ≤ mergedHi l a := by
  induction l generalizing a with
  | nil => exact Nat.le_refl a
  | cons q tl ih =>
      rw [mergedHi_cons]
      exact le_trans (Nat.le_max_left a q.2) (ih (max a q.2))

theorem mergedLo_cases (l : List (Nat × Nat)) (a : Nat) :
    mergedLo l a = a ∨ ∃ p, p ∈ l ∧ mergedLo l a = p.1 := by
  induction l generalizing a with
  | nil => exact Or.inl rfl
  | cons q tl ih =>
      rw [mergedLo_cons]
      rcases Nat.le_total a q.1 with hle | hle
      · rw [Nat.min_eq_left hle]
        rcases ih a with h | ⟨p, hp, he⟩
        · exact Or.inl h
        · exact Or.inr ⟨p, List.mem_cons_of_mem q hp, he⟩
      · rw [Nat.min_eq_right hle]
        rcases ih q.1 with h | ⟨p, hp, he⟩
        · exact Or.inr ⟨q, List.mem_cons_self q tl, h⟩
        · exact Or.inr ⟨p, List.mem_cons_of_mem q hp, he⟩

theorem mergedHi_cases (l : List (Nat × Nat)) (a : Nat) :
    mergedHi l a = a ∨ ∃ p, p ∈ l ∧ mergedHi l a = p.2 := by
  induction l generalizing a with
  | nil => exact Or.inl rfl
  | cons q tl ih =>
      rw [mergedHi_cons]
      rcases Nat.le_total a q.2 with hle | hle
      · rw [Nat.max_eq_right hle]
        rcases ih q.2 with h | ⟨p, hp, he⟩
        · exact Or.inr ⟨q, List.mem_cons_self q tl, h⟩
        · exact Or.inr ⟨p, List.mem_cons_of_mem q hp, he⟩
      · rw [Nat.max_eq_left hle]
        rcases ih a with h | ⟨p, hp, he⟩
        · exact Or.inl h
        · exact Or.inr ⟨p, List.mem_cons_of_mem q hp, he⟩

theorem touches_false_elim {a hi : Nat} {q : Nat × Nat}
    (h : touches a hi q = false) : ¬ (q.1 ≤ hi ∧ a ≤ q.2) := by
  intro hc
  simp [touches, hc.1, hc.2] at h

theorem touches_true_elim {a hi : Nat} {q : Nat × Nat}
    (h : touches a hi q = true) : q.1 ≤ hi ∧ a ≤ q.2 := by
  simpa [touches] using h

/-- The inserted interval, once merged, absorbs a repeated insert: result of
inserting a range into a tracker whose head already covers it. -/
theorem insertInterval_cons_eq (x : Nat × Nat) (R : List (Nat × Nat)) (a n : Nat)
    (hn : n ≠ 0)
    (hx : touches a (a + n) x = true)
    (hR : ∀ q ∈ R, touches a (a + n) q = false)
    (hlo : x.1 ≤ a) (hhi : a + n ≤ x.2) :
    insertInterval (x :: R) a n = x :: R := by
  rw [insertInterval, if_neg hn]
  have h1 : (x :: R).filter (touches a (a + n)) = [x] := by
    rw [List.filter_cons_of_pos hx]
    rw [List.filter_eq_nil_iff.mpr (fun q hq => by simp [hR q hq])]
  have h2 : (x :: R).filter (fun p => ! touches a (a + n) p) = R := by
    rw [List.filter_cons_of_neg (by simp [hx])]
    exact List.filter_eq_self.mpr (fun q hq => by simp [hR q hq])
  rw [h1, h2]
  have hL : mergedLo [x] a = x.1 := by
    rw [mergedLo_cons]
    simp [mergedLo, Nat.min_eq_right hlo]
  have hH : mergedHi [x] (a + n) = x.2 := by
    rw [mergedHi_cons]
    simp [mergedHi, Nat.max_eq_right hhi]
  rw [hL, hH]

/-- Inserting the same range twice gives the same tracker as inserting it
once. -/
theorem insertInterval_idem (l : List (Nat × Nat)) (a n : Nat) :
    insertInterval (insertInterval l a n) a n = insertInterval l a n := by
  by_cases hn : n = 0
  · simp [insertInterval, hn]
  · have hins : insertInterval l a n
        = (mergedLo (l.filter (touches a (a + n))) a,
           mergedHi (l.filter (touches a (a + n))) (a + n))
          :: l.filter (fun p => ! touches a (a + n) p) := by
      rw [insertInterval, if_neg hn]
    rw [hins]
    apply insertInterval_cons_eq _ _ _ _ hn
    · have hL : mergedLo (l.filter (touches a (a + n))) a ≤ a := mergedLo_le _ _
      have hH : a + n ≤ mergedHi (l.filter (touches a (a + n))) (a + n) :=
        le_mergedHi _ _
      simp only [touches, Bool.and_eq_true, decide_eq_true_eq]
      exact ⟨le_trans hL (Nat.le_add_right a n), le_trans (Nat.le_add_right a n) hH⟩
    · intro q hq
      have hmem := List.mem_filter.mp hq
      simpa using hmem.2
    · exact mergedLo_le _ _
    · exact le_mergedHi _ _

theorem separated_symm : Symmetric separated :=
  fun _ _ h hc => h ⟨hc.2, hc.1⟩

/-- Inserting a range preserves the tracker's well-formedness: entries stay
pairwise non-overlapping, non-touching and well-ordered. -/
theorem insertInterval_wf (l : List (Nat × Nat)) (a n : Nat) (h : wfTracker l) :
    wfTracker (insertInterval l a n) := by
  by_cases hn : n = 0
  · simpa [insertInterval, hn] using h
  · obtain ⟨hpw, hwf⟩ := h
    rw [insertInterval, if_neg hn]
    constructor
    · refine List.pairwise_cons.mpr ⟨?_, ?_⟩
      · intro q hq
        have hqmem : q ∈ l := (List.mem_filter.mp hq).1
        have hqf : touches a (a + n) q = false := by
          have := (List.mem_filter.mp hq).2
          simpa using this
        have hqnot := touches_false_elim hqf
        intro hcon
        have h1 : mergedLo (l.filter (touches a (a + n))) a ≤ q.2 := hcon.1
        have h2 : q.1 ≤ mergedHi (l.filter (touches a (a + n))) (a + n) := hcon.2
        have hq12 : q.1 ≤ q.2 := hwf q hqmem
        have hcases : a + n < q.1 ∨ q.2 < a := by omega
        rcases hcases with hgt | hlt
        · rcases mergedHi_cases (l.filter (touches a (a + n))) (a + n) with he | ⟨p, hp, he⟩
          · omega
          · have hpmem : p ∈ l := (List.mem_filter.mp hp).1
            have hpt := touches_true_elim (List.mem_filter.mp hp).2
            have hne : p ≠ q := by
              intro hpq
              rw [hpq] at hpt
              exact hqnot hpt
            have hsep : separated p q :=
              (List.Pairwise.forall separated_symm hpw) hpmem hqmem hne
            exact hsep ⟨by omega, by omega⟩
        · rcases mergedLo_cases (l.filter (touches a (a + n))) a with he | ⟨p, hp, he⟩
          · omega
          · have hpmem : p ∈ l := (List.mem_filter.mp hp).1
            have hpt := touches_true_elim (List.mem_filter.mp hp).2
            have hne : p ≠ q := by
              intro hpq
              rw [hpq] at hpt
              exact hqnot hpt
            have hsep : separated p q :=
              (List.Pairwise.forall separated_symm hpw) hpmem hqmem hne
            exact hsep ⟨by omega, by omega⟩
      · exact List.Pairwise.sublist (List.filter_sublist l) hpw
    · intro p hp
      rcases List.mem_cons.mp hp with rfl | hmem
      · have hL : mergedLo (l.filter (touches a (a + n))) a ≤ a := mergedLo_le _ _
        have hH : a + n ≤ mergedHi (l.filter (touches a (a + n))) (a + n) :=
          le_mergedHi _ _
        simp only []
        omega
      · exact hwf p (List.mem_filter.mp hmem).1

/-- A tracker built by any sequence of inserts starting from empty is
well-formed. -/
theorem foldl_insert_wf (rs : List (Nat × Nat)) :
    wfTracker (rs.foldl (fun acc p => insertInterval acc p.1 p.2) []) := by
  suffices h : ∀ acc, wfTracker acc →
      wfTracker (rs.foldl (fun acc p => insertInterval acc p.1 p.2) acc) by
    refine h [] ⟨List.Pairwise.nil, ?_⟩
    intro p hp
    cases hp
  induction rs with
  | nil => intro acc hacc; exact hacc
  | cons r tl ih =>
      intro acc hacc
      exact ih _ (insertInterval_wf _ _ _ hacc)

/-- Claim C6: the pending-range tracker's insert merges entries that overlap
or touch, so the tracker never holds two intervals that overlap or touch;
inserting the same range twice equals inserting it once (in particular the
entry counts agree); inserting [0,10) then [10,20) yields the single
interval [0,20); inserting [0,10) then [5,15) yields the single interval
[0,15); inserting with size zero is a no-op. -/
theorem C6_theorem :
    (∀ (l : List (Nat × Nat)) (a n : Nat),
        insertInterval (insertInterval l a n) a n = insertInterval l a n)
    ∧ (∀ (l : List (Nat × Nat)) (a n : Nat),
        (insertInterval (insertInterval l a n) a n).length
          = (insertInterval l a n).length)
    ∧ insertInterval (insertInterval [] 0 10) 10 10 = [(0, 20)]
    ∧ insertInterval (insertInterval [] 0 10) 5 10 = [(0, 15)]
    ∧ (∀ (l : List (Nat × Nat)) (a : Nat), insertInterval l a 0 = l)
    ∧ (∀ (rs : List (Nat × Nat)),
        (rs.foldl (fun acc p => insertInterval acc p.1 p.2) []).Pairwise separated) := by
  refine ⟨insertInterval_idem, ?_, by decide, by decide, ?_, ?_⟩
  · intro l a n
    rw [insertInterval_idem]
  · intro l a
    simp [insertInterval]
  · intro rs
    exact (foldl_insert_wf rs).1

/- ------------------------------------------------------------------ -/
/- Helper lemmas about the observer's materialization operations.      -/
/- ------------------------------------------------------------------ -/

theorem attach_pending (s : CallObserver) :
    (attach s).mPendingObservations = s.mPendingObservations := by
  unfold attach
  split <;> rfl

theorem attach_flag (s : CallObserver) :
    (attach s).mObserveApplicationPool = s.mObserveApplicationPool := by
  unfold attach
  split <;> rfl

/-- Claim C7: after observe, observeReads or observeWrites the pending-range
tracker is empty, whether or not it was empty before. -/
theorem C7_theorem (s : CallObserver) (target : List (Nat × Nat)) :
    (observe s target).2.mPendingObservations = []
    ∧ (observeReads s).mPendingObservations = []
    ∧ (observeWrites s).mPendingObservations = [] := by
  refine ⟨rfl, ?_, ?_⟩
  · unfold observeReads
    split
    · rfl
    · rename_i hcond
      exact List.eq_nil_of_length_eq_zero (by omega)
  · unfold observeWrites
    split
    · rfl
    · rename_i hcond
      exact List.eq_nil_of_length_eq_zero (by omega)

/-- Claim C10: raw read and write observations land in one shared pending
collection that does not distinguish reads from writes, and whichever of
observeReads/observeWrites runs next drains every pending range, whatever
kind of operation recorded it, into its own list. -/
theorem C10_theorem (s : CallObserver) (a n : Nat) :
    readRaw s a n = writeRaw s a n
    ∧ recReads (observeReads s) = recReads s ++ s.mPendingObservations
    ∧ recWrites (observeReads s) = recWrites s
    ∧ (observeReads s).mPendingObservations = []
    ∧ recWrites (observeWrites s) = recWrites s ++ s.mPendingObservations
    ∧ recReads (observeWrites s) = recReads s
    ∧ (observeWrites s).mPendingObservations = [] := by
  have hdrainR : ∀ t : CallObserver,
      recReads (observeReads t) = recReads t ++ t.mPendingObservations
      ∧ recWrites (observeReads t) = recWrites t
      ∧ (observeReads t).mPendingObservations = [] := by
    intro t
    cases hl : t.mPendingObservations with
    | nil => simp [observeReads, hl, recReads, recWrites]
    | cons x xs =>
        cases ho : t.mObservations with
        | none =>
            simp [observeReads, hl, ho, recReads, recWrites, recordOf, attach, observe]
        | some o =>
            simp [observeReads, hl, ho, recReads, recWrites, recordOf, attach, observe]
  have hdrainW : ∀ t : CallObserver,
      recWrites (observeWrites t) = recWrites t ++ t.mPendingObservations
      ∧ recReads (observeWrites t) = recReads t
      ∧ (observeWrites t).mPendingObservations = [] := by
    intro t
    cases hl : t.mPendingObservations with
    | nil => simp [observeWrites, hl, recReads, recWrites]
    | cons x xs =>
        cases ho : t.mObservations with
        | none =>
            simp [observeWrites, hl, ho, recReads, recWrites, recordOf, attach, observe]
        | some o =>
            simp [observeWrites, hl, ho, recReads, recWrites, recordOf, attach, observe]
  exact ⟨rfl, (hdrainR s).1, (hdrainR s).2.1, (hdrainR s).2.2,
         (hdrainW s).1, (hdrainW s).2.1, (hdrainW s).2.2⟩

/-- Claim C2: shouldObserve holds exactly when the application-pool policy
flag is on and the slice is application-owned; with the flag off, slice
reads and writes leave the observer untouched; with the flag on, a slice
read or write on an application-owned slice performs the corresponding
insert into the pending tracker. -/
theorem C2_theorem (T : Type) (sz : Nat) (s : CallObserver) (mem : Mem T)
    (sl : Slice T) (i : Nat) :
    shouldObserve s sl = (s.mObserveApplicationPool && sl.isApplicationPool)
    ∧ (s.mObserveApplicationPool = false →
        readSlice sz s sl = s
        ∧ writeSlice sz s sl = s
        ∧ (readIdx sz s mem sl i).2 = s)
    ∧ (s.mObserveApplicationPool = true → sl.isApplicationPool = true →
        (readSlice sz s sl).mPendingObservations
          = insertInterval s.mPendingObservations sl.base (sl.count * sz)
        ∧ (writeSlice sz s sl).mPendingObservations
          = insertInterval s.mPendingObservations sl.base (sl.count * sz)
        ∧ ((readIdx sz s mem sl i).2).mPendingObservations
          = insertInterval s.mPendingObservations (sl.base + i * sz) sz) := by
  refine ⟨rfl, ?_, ?_⟩
  · intro hflag
    simp [readSlice, writeSlice, readIdx, shouldObserve, hflag]
  · intro hflag happ
    simp [readSlice, writeSlice, readIdx, shouldObserve, hflag, happ, readRaw, writeRaw]

/-- Claim C2 witness: the policy gate evaluated at concrete observers and an
application-owned slice. -/
theorem C2_witness :
    readSlice 1 obsOff dstApp = obsOff
    ∧ (readSlice 1 obsOn dstApp).mPendingObservations
        = insertInterval obsOn.mPendingObservations dstApp.base (dstApp.count * 1) :=
  ⟨((C2_theorem Nat 1 obsOff memZero dstApp 0).2.1 rfl).1,
   ((C2_theorem Nat 1 obsOn memZero dstApp 0).2.2 rfl rfl).1⟩

/- ------------------------------------------------------------------ -/
/- Record-attachment invariant, preserved by every observer operation. -/
/- ------------------------------------------------------------------ -/

theorem obsInv_readRaw {s : CallObserver} (a n : Nat) (h : obsInv s) :
    obsInv (readRaw s a n) := h

theorem obsInv_writeRaw {s : CallObserver} (a n : Nat) (h : obsInv s) :
    obsInv (writeRaw s a n) := h

theorem obsInv_readSlice {T : Type} (sz : Nat) {s : CallObserver} (sl : Slice T)
    (h : obsInv s) : obsInv (readSlice sz s sl) := by
  unfold readSlice
  split
  · exact h
  · exact h

theorem obsInv_writeSlice {T : Type} (sz : Nat) {s : CallObserver} (sl : Slice T)
    (h : obsInv s) : obsInv (writeSlice sz s sl) := by
  unfold writeSlice
  split
  · exact h
  · exact h

theorem obsInv_readIdx {T : Type} (sz : Nat) {s : CallObserver} (mem : Mem T)
    (sl : Slice T) (i : Nat) (h : obsInv s) : obsInv (readIdx sz s mem sl i).2 := by
  unfold readIdx
  split
  · exact h
  · exact h

theorem obsInv_writeIdx {T : Type} (sz : Nat) {s : CallObserver} (mem : Mem T)
    (dst : Slice T) (i : Nat) (v : T) (h : obsInv s) :
    obsInv (writeIdx sz s mem dst i v).2 := by
  unfold writeIdx
  split
  · exact h
  · exact h

theorem obsInv_copy {T : Type} (sz : Nat) {s : CallObserver} (mem : Mem T)
    (dst src : Slice T) (h : obsInv s) : obsInv (copy sz s mem dst src).2.2 := by
  simp only [copy]
  split
  · exact obsInv_readSlice sz src h
  · exact obsInv_readSlice sz src h

theorem stringC_obs {s : CallObserver} {mem : Mem Nat} {p fuel : Nat}
    {r : List Nat × CallObserver}
    (hr : stringC s mem p fuel = some (Except.ok r)) (h : obsInv s) : obsInv r.2 := by
  unfold stringC at hr
  split at hr
  · simp at hr
  · split at hr
    · rename_i n hn
      simp only [Option.some.injEq, Except.ok.injEq] at hr
      rw [← hr]
      exact h
    · simp at hr

theorem obsInv_observeReads {s : CallObserver} (h : obsInv s) :
    obsInv (observeReads s) := by
  unfold observeReads
  split
  · cases ho : s.mObservations with
    | none =>
        unfold obsInv at h ⊢
        simp only [ho, Option.isSome_none, Bool.false_eq_true, if_false] at h
        simp [observe, attach, ho, obsExtraCount, List.countP_append,
              List.countP_cons, isObsExtra] at h ⊢
        simpa [obsExtraCount] using h
    | some o =>
        unfold obsInv at h ⊢
        simpa [observe, attach, ho] using h
  · exact h

theorem obsInv_observeWrites {s : CallObserver} (h : obsInv s) :
    obsInv (observeWrites s) := by
  unfold observeWrites
  split
  · cases ho : s.mObservations with
    | none =>
        unfold obsInv at h ⊢
        simp only [ho, Option.isSome_none, Bool.false_eq_true, if_false] at h
        simp [observe, attach, ho, obsExtraCount, List.countP_append,
              List.countP_cons, isObsExtra] at h ⊢
        simpa [obsExtraCount] using h
    | some o =>
        unfold obsInv at h ⊢
        simpa [observe, attach, ho] using h
  · exact h

theorem obsInv_addExtra {s : CallObserver} (n : Nat) (h : obsInv s) :
    obsInv (addExtra s (Extra.other n)) := by
  unfold obsInv at h ⊢
  simpa [addExtra, obsExtraCount, List.countP_append, List.countP_cons, isObsExtra] using h

/-- Every observer operation preserves the record-attachment invariant. -/
theorem obsInv_step (sz : Nat) (w : World Nat) (op : Op) (h : obsInv w.obs) :
    obsInv (step sz w op).obs := by
  cases op with
  | rawRead a n => exact obsInv_readRaw a n h
  | rawWrite a n => exact obsInv_writeRaw a n h
  | sliceRead sl => exact obsInv_readSlice sz sl h
  | sliceWrite sl => exact obsInv_writeSlice sz sl h
  | idxRead sl i => exact obsInv_readIdx sz w.mem sl i h
  | idxWrite sl i v => exact obsInv_writeIdx sz w.mem sl i v h
  | copyBoth dst src => exact obsInv_copy sz w.mem dst src h
  | cloneSrc src => exact obsInv_copy sz w.mem (make sz w src.count).1 src h
  | strC p fuel =>
      simp only [step]
      split
      · rename_i r heq
        exact stringC_obs heq h
      · exact h
  | strSlice sl => exact obsInv_readSlice sz sl h
  | obsReads => exact obsInv_observeReads h
  | obsWrites => exact obsInv_observeWrites h
  | extraOther n => exact obsInv_addExtra n h

/-- Any run from a fresh observer maintains the record-attachment
invariant. -/
theorem obsInv_run (flag : Bool) (sz : Nat) (ops : List Op) :
    obsInv ((ops.foldl (step sz) (initWorld flag)).obs) := by
  suffices h : ∀ w, obsInv w.obs → obsInv ((ops.foldl (step sz) w).obs) by
    refine h _ ?_
    simp [initWorld, initObserver, obsInv, obsExtraCount]
  induction ops with
  | nil => intro w hw; exact hw
  | cons op tl ih =>
      intro w hw
      exact ih _ (obsInv_step sz w op hw)

/-- Claim C5: across an arbitrary sequence of observer operations within one
observer lifetime, at most one observation record is attached to the
extras; materializing with an empty tracker is a no-op; once the record
exists, further materializations append into that same record without
re-attaching. -/
theorem C5_theorem :
    (∀ (flag : Bool) (sz : Nat) (ops : List Op),
        obsExtraCount ((ops.foldl (step sz) (initWorld flag)).obs.mExtras) ≤ 1)
    ∧ (∀ s : CallObserver, s.mPendingObservations = [] →
        observeReads s = s ∧ observeWrites s = s)
    ∧ (∀ (s : CallObserver) (o : Observations), s.mObservations = some o →
        (observeReads s).mObservations
          = some ⟨o.reads ++ s.mPendingObservations, o.writes⟩
        ∧ (observeReads s).mExtras = s.mExtras
        ∧ (observeWrites s).mObservations
          = some ⟨o.reads, o.writes ++ s.mPendingObservations⟩
        ∧ (observeWrites s).mExtras = s.mExtras) := by
  refine ⟨?_, ?_, ?_⟩
  · intro flag sz ops
    have h := obsInv_run flag sz ops
    unfold obsInv at h
    rw [h]
    split
    · omega
    · omega
  · intro s hp
    constructor
    · unfold observeReads
      rw [hp]
      simp
    · unfold observeWrites
      rw [hp]
      simp
  · intro s o ho
    cases hl : s.mPendingObservations with
    | nil =>
        cases o with
        | mk r w => simp [observeReads, observeWrites, hl, ho]
    | cons x xs =>
        simp [observeReads, observeWrites, hl, ho, observe, attach, recordOf]

/-- Claim C5 witness: a concrete run with two materializations attaches the
record at most once, and a drain on an empty tracker is the identity. -/
theorem C5_witness :
    obsExtraCount ((opsDemo.foldl (step 1) (initWorld true)).obs.mExtras) ≤ 1
    ∧ observeReads (initObserver true) = initObserver true :=
  ⟨C5_theorem.1 true 1 opsDemo, (C5_theorem.2.1 (initObserver true) rfl).1⟩

/- ------------------------------------------------------------------ -/
/- Helper lemmas about element writes and the physical copy.           -/
/- ------------------------------------------------------------------ -/

theorem sliceCopy_get {T : Type} (sz : Nat) (src dst : Slice T) (mem : Mem T)
    (hsz : 0 < sz) (n j : Nat) (hj : j < n) :
    sliceCopy sz src dst 0 0 mem n (dst.base + j * sz) = mem (src.base + j * sz) := by
  induction n with
  | zero => omega
  | succ k ih =>
      simp only [sliceCopy, writeElem, Nat.zero_add]
      by_cases hjk : j = k
      · subst hjk
        simp
      · have hne : dst.base + j * sz ≠ dst.base + k * sz := by
          intro hc
          exact hjk (Nat.eq_of_mul_eq_mul_right hsz (Nat.add_left_cancel hc))
        rw [if_neg hne]
        exact ih (by omega)

theorem sliceCopy_other {T : Type} (sz : Nat) (src dst : Slice T) (mem : Mem T)
    (n : Nat) (a : Nat) (ha : ∀ k, k < n → a ≠ dst.base + k * sz) :
    sliceCopy sz src dst 0 0 mem n a = mem a := by
  induction n with
  | zero => rfl
  | succ k ih =>
      simp only [sliceCopy, writeElem, Nat.zero_add]
      rw [if_neg (ha k (by omega))]
      exact ih (fun m hm => ha m (by omega))

theorem copy_fst {T : Type} (sz : Nat) (s : CallObserver) (mem : Mem T)
    (dst src : Slice T) : (copy sz s mem dst src).1 = dst := by
  simp only [copy]
  split
  · rfl
  · rfl

theorem copy_obs {T : Type} (sz : Nat) (s : CallObserver) (mem : Mem T)
    (dst src : Slice T) : (copy sz s mem dst src).2.2 = readSlice sz s src := by
  simp only [copy]
  split
  · rfl
  · rfl

theorem shouldObserve_readSlice {T U : Type} (sz : Nat) (s : CallObserver)
    (x : Slice U) (y : Slice T) :
    shouldObserve (readSlice sz s x) y = shouldObserve s y := by
  unfold readSlice
  split
  · rfl
  · rfl

theorem copy_mem_of_obs {T : Type} (sz : Nat) (s : CallObserver) (mem : Mem T)
    (dst src : Slice T) (hobs : shouldObserve s dst = true) :
    (copy sz s mem dst src).2.1 = mem := by
  simp only [copy]
  rw [shouldObserve_readSlice, hobs]
  rfl

theorem copy_mem_of_not_obs {T : Type} (sz : Nat) (s : CallObserver) (mem : Mem T)
    (dst src : Slice T) (hobs : shouldObserve s dst = false) :
    (copy sz s mem dst src).2.1
      = sliceCopy sz src dst 0 0 mem (min src.count dst.count) := by
  have hmin : (if src.count < dst.count then src.count else dst.count)
      = min src.count dst.count := by
    split <;> omega
  simp only [copy]
  rw [shouldObserve_readSlice, hobs, hmin]
  rfl

theorem writeIdx_of_obs {T : Type} (sz : Nat) (s : CallObserver) (mem : Mem T)
    (dst : Slice T) (i : Nat) (v : T) (hobs : shouldObserve s dst = true) :
    writeIdx sz s mem dst i v = (mem, writeRaw s (dst.base + i * sz) sz) := by
  simp [writeIdx, hobs]

theorem writeIdx_of_not_obs {T : Type} (sz : Nat) (s : CallObserver) (mem : Mem T)
    (dst : Slice T) (i : Nat) (v : T) (hobs : shouldObserve s dst = false) :
    writeIdx sz s mem dst i v = (writeElem mem (dst.base + i * sz) v, s) := by
  simp [writeIdx, hobs]

/-- Claim C1 (amended): write(dst, i, v) and copy(dst, src) leave memory
unchanged exactly when shouldObserve(dst) holds, that is, when dst is
application-owned and application-pool observation is enabled; when
shouldObserve(dst) fails, write stores v at element i of dst and copy
makes dst's first min(src.count, dst.count) elements equal, element for
element, to src's elements before the copy. -/
theorem C1_theorem (T : Type) (sz : Nat) (s : CallObserver) (mem : Mem T)
    (dst src : Slice T) (i : Nat) (v : T) :
    (shouldObserve s dst = true →
        (writeIdx sz s mem dst i v).1 = mem
        ∧ (copy sz s mem dst src).2.1 = mem)
    ∧ (shouldObserve s dst = false → 0 < sz →
        (writeIdx sz s mem dst i v).1 (dst.base + i * sz) = v
        ∧ (∀ a, a ≠ dst.base + i * sz → (writeIdx sz s mem dst i v).1 a = mem a)
        ∧ (∀ j, j < min src.count dst.count →
            (copy sz s mem dst src).2.1 (dst.base + j * sz)
              = mem (src.base + j * sz))) := by
  constructor
  · intro hobs
    refine ⟨?_, copy_mem_of_obs sz s mem dst src hobs⟩
    rw [writeIdx_of_obs sz s mem dst i v hobs]
  · intro hobs hsz
    rw [writeIdx_of_not_obs sz s mem dst i v hobs]
    refine ⟨by simp [writeElem], ?_, ?_⟩
    · intro a ha
      simp [writeElem, ha]
    · intro j hj
      rw [copy_mem_of_not_obs sz s mem dst src hobs]
      exact sliceCopy_get sz src dst mem hsz (min src.count dst.count) j hj

/-- Claim C1 counterexample: with application-pool observation disabled,
write(dst, i, v) does mutate an application-owned destination, refuting
the claim that an application-owned dst is never mutated. -/
theorem C1_counterexample :
    dstApp.isApplicationPool = true
    ∧ (writeIdx 1 obsOff memZero dstApp 0 5).1 (dstApp.base + 0 * 1)
        ≠ memZero (dstApp.base + 0 * 1) := by
  refine ⟨rfl, ?_⟩
  decide

/-- Claim C1 witness: the amended claim evaluated with the gate holding
(observation on, application-owned dst) and failing (observation off). -/
theorem C1_witness :
    (writeIdx 1 obsOn memZero dstApp 0 5).1 = memZero
    ∧ (writeIdx 1 obsOff memZero dstApp 0 5).1 (dstApp.base + 0 * 1) = 5 :=
  ⟨((C1_theorem Nat 1 obsOn memZero dstApp srcFar 0 5).1 rfl).1,
   ((C1_theorem Nat 1 obsOff memZero dstApp srcFar 0 5).2 rfl (by decide)).1⟩

/-- Claim C3 (amended): copy(dst, src) records src's extent as a read
subject to shouldObserve, physically copies exactly
min(src.count, dst.count) elements from src into dst exactly when
shouldObserve(dst) fails (that is, when dst is not application-owned or
application-pool observation is disabled), truncating silently on a length
mismatch and touching no other address, and returns dst unconditionally. -/
theorem C3_theorem (T : Type) (sz : Nat) (s : CallObserver) (mem : Mem T)
    (dst src : Slice T) :
    (copy sz s mem dst src).1 = dst
    ∧ (copy sz s mem dst src).2.2 = readSlice sz s src
    ∧ (shouldObserve s dst = true → (copy sz s mem dst src).2.1 = mem)
    ∧ (shouldObserve s dst = false → 0 < sz →
        (∀ j, j < min src.count dst.count →
            (copy sz s mem dst src).2.1 (dst.base + j * sz)
              = mem (src.base + j * sz))
        ∧ (∀ a, (∀ j, j < min src.count dst.count → a ≠ dst.base + j * sz) →
            (copy sz s mem dst src).2.1 a = mem a)) := by
  refine ⟨copy_fst sz s mem dst src, copy_obs sz s mem dst src, ?_, ?_⟩
  · intro hobs
    exact copy_mem_of_obs sz s mem dst src hobs
  · intro hobs hsz
    rw [copy_mem_of_not_obs sz s mem dst src hobs]
    constructor
    · intro j hj
      exact sliceCopy_get sz src dst mem hsz (min src.count dst.count) j hj
    · intro a ha
      exact sliceCopy_other sz src dst mem (min src.count dst.count) a ha

/-- Claim C3 counterexample: with application-pool observation disabled,
copy(dst, src) does physically copy into an application-owned destination,
refuting "copies only when dst is not application-owned". -/
theorem C3_counterexample :
    dstApp.isApplicationPool = true
    ∧ (copy 1 obsOff memRamp dstApp srcFar).2.1 dstApp.base
        ≠ memRamp dstApp.base := by
  refine ⟨rfl, ?_⟩
  decide

/-- Claim C3 witness: the amended claim evaluated at concrete slices of
counts 2 and 2, with the gate failing for an interceptor-owned dst. -/
theorem C3_witness :
    (copy 1 obsOn memRamp slNonApp4 srcFar).1 = slNonApp4
    ∧ (copy 1 obsOn memRamp slNonApp4 srcFar).2.1
        (slNonApp4.base + 0 * 1) = memRamp (srcFar.base + 0 * 1) :=
  ⟨(C3_theorem Nat 1 obsOn memRamp slNonApp4 srcFar).1,
   ((C3_theorem Nat 1 obsOn memRamp slNonApp4 srcFar).2.2.2 rfl (by decide)).1
     0 (by decide)⟩

/- ------------------------------------------------------------------ -/
/- Clone.                                                              -/
/- ------------------------------------------------------------------ -/

theorem clone_fst {T : Type} (sz : Nat) (w : World T) (src : Slice T) :
    (clone sz w src).1 = (⟨w.nextFree, src.count, false⟩ : Slice T) := rfl

theorem clone_obs {T : Type} (sz : Nat) (w : World T) (src : Slice T) :
    (clone sz w src).2.obs = readSlice sz w.obs src := by
  show (copy sz w.obs w.mem (⟨w.nextFree, src.count, false⟩ : Slice T) src).2.2
      = readSlice sz w.obs src
  exact copy_obs sz w.obs w.mem _ src

theorem clone_mem {T : Type} (sz : Nat) (w : World T) (src : Slice T) :
    (clone sz w src).2.mem
      = (copy sz w.obs w.mem (⟨w.nextFree, src.count, false⟩ : Slice T) src).2.1 := rfl

theorem shouldObserve_fresh {T : Type} (s : CallObserver) (b c : Nat) :
    shouldObserve s (⟨b, c, false⟩ : Slice T) = false := by
  simp [shouldObserve]

/-- Claim C4 (amended): for a slice lying inside already-allocated memory,
clone(src) returns a slice of the same element count backed by storage
disjoint from src's, never classified as application-owned, whose contents
after the clone equal src's contents element for element, and the tracker
is updated exactly as a read of src subject to shouldObserve. -/
theorem C4_theorem (T : Type) (sz : Nat) (w : World T) (src : Slice T)
    (hsz : 0 < sz) (hsrc : src.base + src.count * sz ≤ w.nextFree) :
    (clone sz w src).1.count = src.count
    ∧ (clone sz w src).1.isApplicationPool = false
    ∧ src.base + src.count * sz ≤ (clone sz w src).1.base
    ∧ (∀ j, j < src.count →
        (clone sz w src).2.mem ((clone sz w src).1.base + j * sz)
          = (clone sz w src).2.mem (src.base + j * sz))
    ∧ (clone sz w src).2.obs = readSlice sz w.obs src := by
  refine ⟨rfl, rfl, hsrc, ?_, clone_obs sz w src⟩
  intro j hj
  have hD : shouldObserve w.obs (⟨w.nextFree, src.count, false⟩ : Slice T) = false :=
    shouldObserve_fresh w.obs w.nextFree src.count
  have hmem : (clone sz w src).2.mem
      = sliceCopy sz src ⟨w.nextFree, src.count, false⟩ 0 0 w.mem src.count := by
    rw [clone_mem, copy_mem_of_not_obs sz w.obs w.mem _ src hD]
    simp
  rw [clone_fst, hmem]
  have hjs : j * sz < src.count * sz := mul_lt_mul_of_pos_right hj hsz
  have hleft : sliceCopy sz src (⟨w.nextFree, src.count, false⟩ : Slice T) 0 0 w.mem
      src.count (w.nextFree + j * sz) = w.mem (src.base + j * sz) :=
    sliceCopy_get sz src _ w.mem hsz src.count j hj
  have hright : sliceCopy sz src (⟨w.nextFree, src.count, false⟩ : Slice T) 0 0 w.mem
      src.count (src.base + j * sz) = w.mem (src.base + j * sz) := by
    refine sliceCopy_other sz src _ w.mem src.count _ ?_
    intro k hk
    show src.base + j * sz ≠ w.nextFree + k * sz
    have hks : j * sz < src.count * sz := hjs
    omega
  rw [hleft, hright]

/-- Claim C4 counterexample: clone of a slice that is not application-owned
records no read observation at all, refuting the unconditional "records
src as a read". -/
theorem C4_counterexample :
    srcNonApp3.isApplicationPool = false
    ∧ (clone 1 wBase srcNonApp3).2.obs.mPendingObservations = []
    ∧ insertInterval wBase.obs.mPendingObservations srcNonApp3.base
        (srcNonApp3.count * 1)
        ≠ (clone 1 wBase srcNonApp3).2.obs.mPendingObservations := by
  refine ⟨rfl, ?_, ?_⟩ <;> decide

/-- Claim C4 witness: the amended claim evaluated at a concrete world with
an application-owned source slice inside allocated memory. -/
theorem C4_witness :
    (clone 1 wBase srcApp2).1.count = srcApp2.count
    ∧ (clone 1 wBase srcApp2).1.isApplicationPool = false
    ∧ srcApp2.base + srcApp2.count * 1 ≤ (clone 1 wBase srcApp2).1.base
    ∧ (clone 1 wBase srcApp2).2.mem ((clone 1 wBase srcApp2).1.base + 0 * 1)
        = (clone 1 wBase srcApp2).2.mem (srcApp2.base + 0 * 1) := by
  have h := C4_theorem Nat 1 wBase srcApp2 (by decide) (by decide)
  exact ⟨h.1, h.2.1, h.2.2.1, h.2.2.2.1 0 (by decide)⟩

/- ------------------------------------------------------------------ -/
/- C strings.                                                          -/
/- ------------------------------------------------------------------ -/

/-- When the first zero byte sits at offset n and the fuel reaches it, the
scan finds exactly n. -/
theorem cstrFind_eq (mem : Mem Nat) (p n fuel : Nat)
    (hz : mem (p + n) = 0) (hnz : ∀ k, k < n → mem (p + k) ≠ 0)
    (hf : n < fuel) : cstrFind mem p fuel = some n := by
  induction n generalizing p fuel with
  | zero =>
      cases fuel with
      | zero => omega
      | succ f =>
          have h0 : mem p = 0 := by simpa using hz
          simp [cstrFind, h0]
  | succ m ih =>
      cases fuel with
      | zero => omega
      | succ f =>
          have h0 : mem p ≠ 0 := by simpa using hnz 0 (Nat.succ_pos m)
          have hz1 : mem (p + 1 + m) = 0 := by
            have he : p + 1 + m = p + (m + 1) := by omega
            rw [he]
            exact hz
          have hnz1 : ∀ k, k < m → mem (p + 1 + k) ≠ 0 := by
            intro k hk
            have he : p + 1 + k = p + (k + 1) := by omega
            rw [he]
            exact hnz (k + 1) (by omega)
          have hrec : cstrFind mem (p + 1) f = some m := ih (p + 1) f hz1 hnz1 (by omega)
          simp [cstrFind, h0, hrec]

/-- Claim C8: string(cPointer) fails with the fatal null-pointer error on a
null pointer; otherwise, when the first zero byte of the buffer sits at
offset n (and the scan fuel reaches it), it records exactly one read
observation of n+1 bytes starting at the pointer and returns the
n-character text preceding the terminator. -/
theorem C8_theorem (s : CallObserver) (mem : Mem Nat) (fuel : Nat) :
    stringC s mem 0 fuel = some (Except.error ())
    ∧ (∀ p n, p ≠ 0 → mem (p + n) = 0 → (∀ k, k < n → mem (p + k) ≠ 0) →
        n < fuel →
        stringC s mem p fuel
          = some (Except.ok ((List.range n).map (fun k => mem (p + k)),
                             readRaw s p (n + 1)))
        ∧ ((List.range n).map (fun k => mem (p + k))).length = n
        ∧ (readRaw s p (n + 1)).mPendingObservations
            = insertInterval s.mPendingObservations p (n + 1)) := by
  constructor
  · simp [stringC]
  · intro p n hp hz hnz hf
    refine ⟨?_, by simp, rfl⟩
    unfold stringC
    rw [if_neg hp, cstrFind_eq mem p n fuel hz hnz hf]

/-- Claim C8 witness: a concrete 3-character buffer terminated at offset 3
yields the text of length 3 and a recorded read of 4 bytes; the null case
is closed by the same theorem. -/
theorem C8_witness :
    stringC obsOn memStr 0 5 = some (Except.error ())
    ∧ stringC obsOn memStr 10 5
        = some (Except.ok ((List.range 3).map (fun k => memStr (10 + k)),
                           readRaw obsOn 10 4)) :=
  ⟨(C8_theorem obsOn memStr 5).1,
   ((C8_theorem obsOn memStr 5).2 10 3 (by decide) (by decide) (by decide)
      (by decide)).1⟩

/-- Claim C9 (amended): string(slice) returns the slice's contents verbatim
(length slice.count, no terminator scanning) and records the slice's full
extent as a read observation subject to shouldObserve: the extent is
inserted into the tracker exactly when shouldObserve(slice) holds, and the
observer is untouched otherwise. -/
theorem C9_theorem (T : Type) (sz : Nat) (s : CallObserver) (mem : Mem T)
    (sl : Slice T) :
    (stringSlice sz s mem sl).1
      = (List.range sl.count).map (fun i => mem (sl.base + i * sz))
    ∧ (stringSlice sz s mem sl).1.length = sl.count
    ∧ (shouldObserve s sl = true →
        (stringSlice sz s mem sl).2.mPendingObservations
          = insertInterval s.mPendingObservations sl.base (sl.count * sz))
    ∧ (shouldObserve s sl = false → (stringSlice sz s mem sl).2 = s) := by
  refine ⟨rfl, by simp [stringSlice], ?_, ?_⟩
  · intro hobs
    simp [stringSlice, readSlice, hobs, readRaw]
  · intro hobs
    simp [stringSlice, readSlice, hobs]

/-- Claim C9 counterexample: for a slice that is not application-owned,
string(slice) records nothing, refuting the unconditional "records the
slice's full extent as a read observation". -/
theorem C9_counterexample :
    slNonApp4.isApplicationPool = false
    ∧ (stringSlice 1 obsOn memZero slNonApp4).2.mPendingObservations = []
    ∧ insertInterval obsOn.mPendingObservations slNonApp4.base (slNonApp4.count * 1)
        ≠ (stringSlice 1 obsOn memZero slNonApp4).2.mPendingObservations := by
  refine ⟨rfl, ?_, ?_⟩ <;> decide

/-- Claim C9 witness: the amended claim evaluated with the gate holding
(application-owned slice, observation on) and failing (interceptor-owned
slice). -/
theorem C9_witness :
    (stringSlice 1 obsOn memZero dstApp).2.mPendingObservations
      = insertInterval obsOn.mPendingObservations dstApp.base (dstApp.count * 1)
    ∧ (stringSlice 1 obsOn memZero slNonApp4).2 = obsOn :=
  ⟨(C9_theorem Nat 1 obsOn memZero dstApp).2.2.1 rfl,
   (C9_theorem Nat 1 obsOn memZero slNonApp4).2.2.2 rfl⟩

end gapii
